import Mathlib

/-!
Shallow embedding of the periodic-table visualizer (src/src/App.tsx).

Strings are modelled as `List Char`; JS `String.prototype.includes` is the
substring (infix) relation; JS `toLowerCase` is `Char.toLower` mapped over the
characters.  JS numbers are modelled as exact values: naturals/integers where
the source only ever holds integers, and `Option ℤ` where a value can be the
float `NaN` (`none` = NaN), which arises from `parseFloat` on a malformed
`atomicMass` string.  Real-valued geometry (`Math.cos`, `Math.acos`, ...) is
modelled over `ℝ`, the usual idealization of IEEE doubles.
-/

/-- The element record type consumed by the app.  Modelled from the spec:
the dataset module `src/data/elements` is not part of the sources; the spec's
data model lists these fields (`number, symbol, name, hebrewName,
hebrewSummary, category, atomicMass, phase, shells, x, y`). -/
structure ElementData where
  number : ℕ
  symbol : List Char
  name : List Char
  hebrewName : List Char
  hebrewSummary : List Char
  category : List Char
  atomicMass : List Char
  phase : List Char
  shells : List ℕ
  x : ℕ
  y : ℕ
deriving DecidableEq

/-- The decimal digit character for `n < 10` (code point `48 + n`). -/
def digitChar (n : ℕ) : Char := Char.ofNat (48 + n)

/-- Fuel-indexed helper for `natToChars`; the fuel dominates the number of
decimal digits, so it never runs out when called through `natToChars`. -/
def natToCharsAux : ℕ → ℕ → List Char
  | 0, _ => []
  | fuel + 1, n =>
    if n < 10 then [digitChar n]
    else natToCharsAux fuel (n / 10) ++ [digitChar (n % 10)]

/-- JS `Number.prototype.toString` restricted to the naturals that appear as
atomic numbers: the decimal digit string of `n`. -/
def natToChars (n : ℕ) : List Char := natToCharsAux n n

/-- The search predicate of `filteredElements` (App.tsx lines 190-197): the raw
term is a substring of the Hebrew name, the lower-cased term is a substring of
the lower-cased English name or symbol, or the raw term is a substring of the
decimal string of the atomic number. -/
def matchesSearch (term : List Char) (e : ElementData) : Bool :=
  decide (term <:+: e.hebrewName) ||
  decide (term.map Char.toLower <:+: e.name.map Char.toLower) ||
  decide (term.map Char.toLower <:+: e.symbol.map Char.toLower) ||
  decide (term <:+: natToChars e.number)

/-- `filteredElements` (App.tsx lines 190-197): the dataset filtered by
`matchesSearch`.  The `useMemo` dependency list `[searchTerm]` is captured by
the result being a function of the search term (and the static dataset). -/
def filteredElements (dataset : List ElementData) (term : List Char) :
    List ElementData :=
  dataset.filter (matchesSearch term)

/-- One nucleus particle (App.tsx lines 78-85): a 3D position and the
proton/neutron flag. -/
structure NucleusParticle where
  pos : ℝ × ℝ × ℝ
  isProton : Bool

/-- The Fibonacci-sphere point for loop index `i` (App.tsx lines 75-83):
`phi = acos (-1 + 2 i / total)`, `theta = sqrt (total * π) * phi`, converted to
Cartesian coordinates at radius `r = 0.3`. -/
noncomputable def nucleusPoint (total : ℝ) (i : ℕ) : ℝ × ℝ × ℝ :=
  let phi := Real.arccos (-1 + (2 * (i : ℝ)) / total)
  let theta := Real.sqrt (total * Real.pi) * phi
  let r : ℝ := 0.3
  (r * Real.cos theta * Real.sin phi,
   r * Real.sin theta * Real.sin phi,
   r * Real.cos phi)

/-- The particle list built by `Nucleus` (App.tsx lines 71-88).  `neutrons` is
a JS number: `none` models NaN (from a malformed `atomicMass`), in which case
the loop guard `i < total` compares against NaN, is always false, and the loop
body never runs.  For an integer `neutrons`, the loop
`for (i = 0; i < total; i++)` runs `max total 0` times (`Int.toNat`), and
particle `i` is flagged a proton exactly when `i < protons`. -/
noncomputable def nucleusParticles (protons : ℕ) (neutrons : Option ℤ) :
    List NucleusParticle :=
  match neutrons with
  | none => []
  | some ns =>
    let total : ℤ := (protons : ℤ) + ns
    (List.range total.toNat).map fun i =>
      { pos := nucleusPoint (total : ℝ) i, isProton := decide (i < protons) }

/-- The neutron count derived by `AtomModel` (App.tsx line 115):
`Math.round(parseFloat(element.atomicMass)) - protons`.  The argument
`massRounded` is the JS value `Math.round(parseFloat(atomicMass))`: `some m`
when the text parses (rounded to the integer `m`), `none` for NaN when it does
not; NaN propagates through the subtraction. -/
def atomNeutrons (protons : ℕ) (massRounded : Option ℤ) : Option ℤ :=
  massRounded.map fun m => m - (protons : ℤ)

/-- The nucleus rendered by `AtomModel` (App.tsx lines 113-119): `Nucleus`
applied to `protons = element.number` and the derived neutron count. -/
noncomputable def atomNucleus (protons : ℕ) (massRounded : Option ℤ) :
    List NucleusParticle :=
  nucleusParticles protons (atomNeutrons protons massRounded)

/-- Orbit radius of shell `s` (0-based, App.tsx line 121):
`(shellIndex + 1) * 1.2`. -/
noncomputable def shellRadius (s : ℕ) : ℝ := ((s : ℝ) + 1) * 1.2

/-- Angular speed of shell `s` (App.tsx line 135): `1 / (shellIndex + 1) * 2`. -/
noncomputable def shellSpeed (s : ℕ) : ℝ := 1 / ((s : ℝ) + 1) * 2

/-- Phase offset of electron `e` in a shell of `count` electrons (App.tsx
line 136): `(eIndex / count) * Math.PI * 2`. -/
noncomputable def electronOffset (count e : ℕ) : ℝ :=
  ((e : ℝ) / (count : ℝ)) * Real.pi * 2

/-- The random orbit tilts drawn during one render of `AtomModel` (App.tsx
lines 122-126).  `rand` is the stream of `Math.random()` samples and `start`
the position of the stream at the beginning of the render: shell `s` draws the
three consecutive samples `start + 3 s, start + 3 s + 1, start + 3 s + 2`, each
scaled by π.  A later render of the same element starts further along the
stream. -/
noncomputable def atomModelTilts (rand : ℕ → ℝ) (start numShells : ℕ) :
    List (ℝ × ℝ × ℝ) :=
  (List.range numShells).map fun s =>
    (rand (start + 3 * s) * Real.pi,
     rand (start + 3 * s + 1) * Real.pi,
     rand (start + 3 * s + 2) * Real.pi)

/-- One invocation of the `useFrame` callback of `Electron` (App.tsx lines
34-41): when not paused, set the position from `t = elapsed * speed + offset`;
when paused, leave the previous position untouched. -/
noncomputable def electronUpdate (radius speed offset : ℝ) (isPaused : Bool)
    (elapsed : ℝ) (prev : ℝ × ℝ × ℝ) : ℝ × ℝ × ℝ :=
  if isPaused then prev
  else
    let t := elapsed * speed + offset
    (Real.cos t * radius,
     Real.sin (t * 0.5) * (radius * 0.2),
     Real.sin t * radius)

/-- The electron position after `k` frames: frame `k` invokes the `useFrame`
callback with elapsed time `times k`. -/
noncomputable def electronFrames (radius speed offset : ℝ) (isPaused : Bool)
    (times : ℕ → ℝ) (init : ℝ × ℝ × ℝ) : ℕ → ℝ × ℝ × ℝ
  | 0 => init
  | k + 1 =>
    electronUpdate radius speed offset isPaused (times k)
      (electronFrames radius speed offset isPaused times init k)

/-! ### Helper lemmas -/

/-- A singleton list is an infix exactly when its element occurs in the list. -/
theorem singleton_infix_iff_mem (a : Char) (l : List Char) :
    [a] <:+: l ↔ a ∈ l := by
  constructor
  · intro h
    exact h.subset (List.mem_singleton_self a)
  · intro h
    obtain ⟨s, t, rfl⟩ := List.append_of_mem h
    exact ⟨s, t, by simp⟩

/-- Every character produced by `natToCharsAux` is a decimal digit. -/
theorem natToCharsAux_digit (fuel : ℕ) :
    ∀ n c, c ∈ natToCharsAux fuel n → ∃ d, d < 10 ∧ c = digitChar d := by
  induction fuel with
  | zero => intro n c hc; simp [natToCharsAux] at hc
  | succ fuel ih =>
    intro n c hc
    rw [natToCharsAux] at hc
    by_cases h : n < 10
    · rw [if_pos h] at hc
      simp at hc
      exact ⟨n, h, hc⟩
    · rw [if_neg h] at hc
      simp at hc
      rcases hc with hc | hc
      · exact ih _ c hc
      · exact ⟨n % 10, Nat.mod_lt _ (by norm_num), hc⟩

/-- The decimal string of a natural number contains no Latin letters, in
particular neither `H` nor `h`. -/
theorem letter_not_mem_natToChars (n : ℕ) :
    'H' ∉ natToChars n ∧ 'h' ∉ natToChars n := by
  have key : ∀ d, d < 10 → digitChar d ≠ 'H' ∧ digitChar d ≠ 'h' := by decide
  constructor <;> intro hmem <;>
    obtain ⟨d, hd, he⟩ := natToCharsAux_digit n n _ hmem
  · exact (key d hd).1 he.symm
  · exact (key d hd).2 he.symm

/-- The squared distance of a Fibonacci-sphere point from the origin is the
squared radius, exactly, for every `total` and `i`. -/
theorem nucleusPoint_normSq (total : ℝ) (i : ℕ) :
    (nucleusPoint total i).1 ^ 2 + (nucleusPoint total i).2.1 ^ 2 +
      (nucleusPoint total i).2.2 ^ 2 = (0.3 : ℝ) ^ 2 := by
  have hθ := Real.sin_sq_add_cos_sq
    (Real.sqrt (total * Real.pi) * Real.arccos (-1 + (2 * (i : ℝ)) / total))
  have hφ := Real.sin_sq_add_cos_sq (Real.arccos (-1 + (2 * (i : ℝ)) / total))
  simp only [nucleusPoint]
  nlinarith [hθ, hφ]

/-! ### Claims -/

/-- Claim C2: when `total = protons + neutrons = 0`, the nucleus
particle-placement returns the empty list (the loop body, and with it the
division `2 i / total`, never runs), so an empty nucleus is rendered without
error. -/
theorem nucleus_total_zero_empty (protons neutrons : ℕ)
    (h : protons + neutrons = 0) :
    nucleusParticles protons (some (neutrons : ℤ)) = [] := by
  obtain ⟨hp, hn⟩ := Nat.add_eq_zero.mp h
  subst hp hn
  simp [nucleusParticles]

/-- Witness for C2 at `protons = 0`, `neutrons = 0`. -/
theorem nucleus_total_zero_empty_wit :
    nucleusParticles 0 (some ((0 : ℕ) : ℤ)) = [] :=
  nucleus_total_zero_empty 0 0 rfl

/-- Claim C4: the unpaused per-frame update sets the electron position to
`(radius * cos t, sin (t * 0.5) * radius * 0.2, radius * sin t)` with
`t = elapsed * speed + offset`. -/
theorem electron_update_unpaused (radius speed offset elapsed : ℝ)
    (prev : ℝ × ℝ × ℝ) :
    electronUpdate radius speed offset false elapsed prev =
      (radius * Real.cos (elapsed * speed + offset),
       Real.sin ((elapsed * speed + offset) * 0.5) * radius * 0.2,
       radius * Real.sin (elapsed * speed + offset)) := by
  simp only [electronUpdate, Bool.false_eq_true, if_false, Prod.mk.injEq]
  refine ⟨by ring, by ring, by ring⟩

/-- Claim C5: while `isPaused` is true the per-frame update is skipped, so the
position after frame `k + 1` equals the position after frame `k`, for every
electron parameter set (the single pause flag is passed to every electron of
every shell) and every sequence of elapsed times. -/
theorem electron_paused_frozen (radius speed offset : ℝ) (times : ℕ → ℝ)
    (init : ℝ × ℝ × ℝ) (k : ℕ) :
    electronFrames radius speed offset true times init (k + 1) =
      electronFrames radius speed offset true times init k := by
  simp [electronFrames, electronUpdate]

/-- Counterexample to claim C8 as stated: for an element with one proton whose
`atomicMass` does not parse (`massRounded = none`, i.e. NaN), the nucleus list
is empty — the element's proton is *not* rendered, contrary to "treated as
zero additional neutrons". -/
theorem atom_unparsable_counterexample :
    (atomNucleus 1 none).length ≠ 1 := by
  simp [atomNucleus, atomNeutrons, nucleusParticles]

/-- Claim C8 (amended): a non-numeric `atomicMass` yields a NaN neutron count,
the placement loop performs zero iterations, and the nucleus renders empty (no
particles at all, not even the protons); no error is raised. -/
theorem atom_unparsable_mass_empty (protons : ℕ) :
    atomNucleus protons none = [] := by
  simp [atomNucleus, atomNeutrons, nucleusParticles]

/-- Claim C10: when the rounded atomic mass `m` (with `0 ≤ m`) is smaller than
the proton count, the derived neutron count is negative, and placement
produces exactly `m` particles — fewer than `protons` — each flagged as a
proton. -/
theorem atom_low_mass_all_protons (protons : ℕ) (m : ℤ) (h0 : 0 ≤ m)
    (hlt : m < (protons : ℤ)) :
    (atomNucleus protons (some m)).length = m.toNat ∧
    ((m.toNat : ℤ) = m) ∧ m.toNat < protons ∧
    ∀ part ∈ atomNucleus protons (some m), part.isProton = true := by
  have htot : (protons : ℤ) + (m - (protons : ℤ)) = m := by ring
  refine ⟨?_, by omega, by omega, ?_⟩
  · simp [atomNucleus, atomNeutrons, nucleusParticles, htot]
  · intro part hpart
    simp only [atomNucleus, atomNeutrons, Option.map_some', nucleusParticles,
      htot, List.mem_map, List.mem_range] at hpart
    obtain ⟨i, hi, rfl⟩ := hpart
    have hip : i < protons := by omega
    simp [hip]

/-- Witness for C10 at `protons = 2`, `massRounded = some 1`. -/
theorem atom_low_mass_all_protons_wit :
    (atomNucleus 2 (some 1)).length = (1 : ℤ).toNat :=
  (atom_low_mass_all_protons 2 1 (by decide) (by decide)).1

/-- Claim C1: for `total = protons + neutrons > 0` the nucleus placement
returns exactly `total` particles; particle `i` carries the Fibonacci-sphere
position obtained from `phi = acos (-1 + 2 i / total)` and
`theta = sqrt (total * π) * phi` at radius `0.3`, lies exactly on the sphere of
radius `0.3`, and is flagged a proton precisely when `i < protons`. -/
theorem nucleus_placement (protons neutrons : ℕ) (h : 0 < protons + neutrons) :
    (nucleusParticles protons (some (neutrons : ℤ))).length =
      protons + neutrons ∧
    ∀ i, i < protons + neutrons →
      ∃ part,
        (nucleusParticles protons (some (neutrons : ℤ)))[i]? = some part ∧
        part.pos =
          ((0.3 : ℝ) *
             Real.cos (Real.sqrt (((protons + neutrons : ℕ) : ℝ) * Real.pi) *
               Real.arccos (-1 + (2 * (i : ℝ)) / ((protons + neutrons : ℕ) : ℝ))) *
             Real.sin (Real.arccos (-1 + (2 * (i : ℝ)) / ((protons + neutrons : ℕ) : ℝ))),
           (0.3 : ℝ) *
             Real.sin (Real.sqrt (((protons + neutrons : ℕ) : ℝ) * Real.pi) *
               Real.arccos (-1 + (2 * (i : ℝ)) / ((protons + neutrons : ℕ) : ℝ))) *
             Real.sin (Real.arccos (-1 + (2 * (i : ℝ)) / ((protons + neutrons : ℕ) : ℝ))),
           (0.3 : ℝ) *
             Real.cos (Real.arccos (-1 + (2 * (i : ℝ)) / ((protons + neutrons : ℕ) : ℝ)))) ∧
        part.pos.1 ^ 2 + part.pos.2.1 ^ 2 + part.pos.2.2 ^ 2 = (0.3 : ℝ) ^ 2 ∧
        (part.isProton = true ↔ i < protons) := by
  have hcast : ((protons : ℤ) + (neutrons : ℤ)).toNat = protons + neutrons := by
    omega
  have hreal : (((protons : ℤ) + (neutrons : ℤ) : ℤ) : ℝ) =
      ((protons + neutrons : ℕ) : ℝ) := by push_cast; ring
  constructor
  · simp [nucleusParticles, hcast]
  · intro i hi
    have hi' : i < ((protons : ℤ) + (neutrons : ℤ)).toNat := by omega
    refine ⟨{ pos := nucleusPoint ((protons + neutrons : ℕ) : ℝ) i,
              isProton := decide (i < protons) }, ?_, ?_, ?_, ?_⟩
    · simp only [nucleusParticles]
      rw [List.getElem?_map, List.getElem?_range hi', Option.map_some', hreal]
    · rfl
    · simpa using nucleusPoint_normSq ((protons + neutrons : ℕ) : ℝ) i
    · simp

/-- Witness for C1 at `protons = 1`, `neutrons = 0` (the hydrogen scenario of
the spec: a single particle, a proton). -/
theorem nucleus_placement_wit :
    (nucleusParticles 1 (some ((0 : ℕ) : ℤ))).length = 1 + 0 :=
  (nucleus_placement 1 0 (by decide)).1

/-- Claim C3: shell `s` (0-based) has orbit radius `(s + 1) * 1.2` and angular
speed `2 / (s + 1)` (the source's `1 / (s + 1) * 2`); in a shell of
`count > 0` electrons, electron `e` has phase offset `(e / count) * 2π`, i.e.
`e` times the arc `2π / count`, so consecutive offsets differ by exactly
`2π / count` and all offsets lie in `[0, 2π)`. -/
theorem shell_orbit_parameters (s count : ℕ) (hc : 0 < count) :
    shellRadius s = ((s : ℝ) + 1) * 1.2 ∧
    shellSpeed s = 2 / ((s : ℝ) + 1) ∧
    (∀ e, e < count →
      electronOffset count e = (e : ℝ) * (2 * Real.pi / (count : ℝ))) ∧
    (∀ e, e + 1 < count →
      electronOffset count (e + 1) - electronOffset count e =
        2 * Real.pi / (count : ℝ)) ∧
    (∀ e, e < count →
      0 ≤ electronOffset count e ∧ electronOffset count e < 2 * Real.pi) := by
  have hcpos : (0 : ℝ) < (count : ℝ) := by exact_mod_cast hc
  have hc0 : ((count : ℝ)) ≠ 0 := ne_of_gt hcpos
  refine ⟨rfl, ?_, ?_, ?_, ?_⟩
  · rw [shellSpeed]; ring
  · intro e he
    rw [electronOffset]
    field_simp
    ring
  · intro e he
    rw [electronOffset, electronOffset]
    push_cast
    field_simp
    ring
  · intro e he
    have hpi := Real.pi_pos
    constructor
    · rw [electronOffset]
      positivity
    · have h1 : (e : ℝ) / (count : ℝ) < 1 :=
        (div_lt_one hcpos).mpr (by exact_mod_cast he)
      have h2 : 0 ≤ (e : ℝ) / (count : ℝ) :=
        div_nonneg (Nat.cast_nonneg e) (le_of_lt hcpos)
      rw [electronOffset]
      nlinarith

/-- Witness for C3 at shell `s = 0` with `count = 2` electrons. -/
theorem shell_orbit_parameters_wit :
    shellSpeed 0 = 2 / (((0 : ℕ) : ℝ) + 1) ∧
    electronOffset 2 1 =
      ((1 : ℕ) : ℝ) * (2 * Real.pi / ((2 : ℕ) : ℝ)) :=
  ⟨(shell_orbit_parameters 0 2 (by decide)).2.1,
   (shell_orbit_parameters 0 2 (by decide)).2.2.1 1 (by decide)⟩

/-- A minimal element record; only the atomic number is populated. -/
def sampleElem (n : ℕ) : ElementData :=
  { number := n, symbol := [], name := [], hebrewName := [], hebrewSummary := [],
    category := [], atomicMass := [], phase := [], shells := [], x := 0, y := 0 }

/-- Claim C6: an element of the dataset is in `filteredElements` exactly when
the term is a substring of its Hebrew name, a case-insensitive substring of
its English name, a case-insensitive substring of its symbol, or a substring
of the decimal string of its atomic number.  `filteredElements` is a function
of the search term alone (over the static dataset), which is what the memo
dependency list `[searchTerm]` expresses. -/
theorem filtered_elements_membership (dataset : List ElementData)
    (term : List Char) (e : ElementData) (he : e ∈ dataset) :
    e ∈ filteredElements dataset term ↔
      (term <:+: e.hebrewName ∨
       term.map Char.toLower <:+: e.name.map Char.toLower ∨
       term.map Char.toLower <:+: e.symbol.map Char.toLower ∨
       term <:+: natToChars e.number) := by
  simp [filteredElements, List.mem_filter, matchesSearch, he, or_assoc]

/-- Witness for C6: the spec's scenario — the term `"3"` matches the element
with atomic number 13 through the decimal string `"13"`. -/
theorem filtered_elements_membership_wit :
    sampleElem 13 ∈
      filteredElements [sampleElem 3, sampleElem 13, sampleElem 30] ['3'] :=
  (filtered_elements_membership [sampleElem 3, sampleElem 13, sampleElem 30]
      ['3'] (sampleElem 13) (by decide)).mpr (by decide)

/-- An element record whose Hebrew-name field holds the Latin letter `h`. -/
def elemLatinHe : ElementData :=
  { number := 0, symbol := [], name := [], hebrewName := ['h'],
    hebrewSummary := [], category := [], atomicMass := [], phase := [],
    shells := [], x := 0, y := 0 }

/-- Counterexample to claim C7 as stated: the Hebrew-name test is
case-sensitive, so a dataset whose Hebrew name contains a lower-case Latin
`h` is matched by `filter "h"` but not by `filter "H"` — the two result sets
differ. -/
theorem filter_case_counterexample :
    filteredElements [elemLatinHe] ['H'] ≠
      filteredElements [elemLatinHe] ['h'] := by
  decide

/-- Claim C7 (amended): provided no element's Hebrew name distinguishes `H`
from `h` (in particular whenever Hebrew names contain no Latin letters, as
only the English-name and symbol tests are case-insensitive),
`filter "H"` and `filter "h"` return identical result sets; and `filter ""`
returns the full dataset in order. -/
theorem filter_case_and_empty (dataset : List ElementData)
    (hds : ∀ e ∈ dataset, ('H' ∈ e.hebrewName ↔ 'h' ∈ e.hebrewName)) :
    filteredElements dataset ['H'] = filteredElements dataset ['h'] ∧
    filteredElements dataset [] = dataset := by
  constructor
  · show dataset.filter (matchesSearch ['H']) =
      dataset.filter (matchesSearch ['h'])
    apply List.filter_congr
    intro e he
    have h1 : decide (['H'] <:+: e.hebrewName) =
        decide (['h'] <:+: e.hebrewName) := by
      rw [decide_eq_decide, singleton_infix_iff_mem, singleton_infix_iff_mem]
      exact hds e he
    have h2 : decide (['H'] <:+: natToChars e.number) = false :=
      decide_eq_false (by
        rw [singleton_infix_iff_mem]
        exact (letter_not_mem_natToChars e.number).1)
    have h3 : decide (['h'] <:+: natToChars e.number) = false :=
      decide_eq_false (by
        rw [singleton_infix_iff_mem]
        exact (letter_not_mem_natToChars e.number).2)
    have hmapH : ['H'].map Char.toLower = ['h'] := by decide
    have hmaph : ['h'].map Char.toLower = ['h'] := by decide
    simp only [matchesSearch, hmapH, hmaph, h1, h2, h3]
  · show dataset.filter (matchesSearch []) = dataset
    rw [List.filter_eq_self]
    intro e he
    simp [matchesSearch, List.nil_infix]

/-- Witness for C7's amended theorem on a one-element dataset whose Hebrew
name is empty. -/
theorem filter_case_and_empty_wit :
    filteredElements [sampleElem 5] ['H'] =
      filteredElements [sampleElem 5] ['h'] ∧
    filteredElements [sampleElem 5] [] = [sampleElem 5] :=
  filter_case_and_empty [sampleElem 5] (by decide)

/-- A deterministic stand-in for the `Math.random` sample stream, used to
exhibit tilt regeneration: sample 0 is `0`, every later sample is `1 / 2`
(all values lie in `[0, 1)`, as `Math.random` guarantees). -/
noncomputable def randSample : ℕ → ℝ := fun n => if n = 0 then 0 else 1 / 2

/-- Counterexample to claim C9 as stated: rendering the same one-shell element
twice — the second render reads the `Math.random` stream three samples further
along, as happens whenever anything re-renders `AtomModel` without changing
the selected element (a pause toggle, a search keystroke) — produces a
different orbit tilt, so the tilt does not remain constant across re-renders
until the selected element changes. -/
theorem tilt_rerender_counterexample :
    atomModelTilts randSample 0 1 ≠ atomModelTilts randSample 3 1 := by
  have h0 : randSample 0 = 0 := by norm_num [randSample]
  have h3 : randSample 3 = 1 / 2 := by norm_num [randSample]
  intro hEq
  have hfst := congrArg (fun l => ((l.headI : ℝ × ℝ × ℝ)).1) hEq
  simp [atomModelTilts, List.range_succ, h0, h3] at hfst
  nlinarith [Real.pi_pos, hfst]

/-- Claim C9 (amended): the three Euler tilt angles are drawn afresh from the
random stream on every render of `AtomModel` — at least once per element
selection, but equally on any other re-render — with shell `s` receiving the
three consecutive samples at offsets `3s, 3s + 1, 3s + 2` into the current
render's draw, each scaled by π.  Per-frame animation does not re-render, so
the tilt is constant between renders; reselecting the same element draws
fresh samples. -/
theorem tilt_per_render (rand : ℕ → ℝ) (start numShells s : ℕ)
    (hs : s < numShells) :
    (atomModelTilts rand start numShells).length = numShells ∧
    (atomModelTilts rand start numShells)[s]? =
      some (rand (start + 3 * s) * Real.pi,
            rand (start + 3 * s + 1) * Real.pi,
            rand (start + 3 * s + 2) * Real.pi) := by
  constructor
  · simp [atomModelTilts]
  · simp only [atomModelTilts]
    rw [List.getElem?_map, List.getElem?_range hs, Option.map_some']

/-- Witness for C9's amended theorem: one shell, the constant-zero sample
stream. -/
theorem tilt_per_render_wit :
    (atomModelTilts (fun _ => (0 : ℝ)) 0 1).length = 1 ∧
    (atomModelTilts (fun _ => (0 : ℝ)) 0 1)[0]? =
      some ((0 : ℝ) * Real.pi, (0 : ℝ) * Real.pi, (0 : ℝ) * Real.pi) :=
  tilt_per_render (fun _ => (0 : ℝ)) 0 1 0 (by decide)
